import Mathlib

/-!
Verification of the systrading backtesting core.

A shallow embedding, in Lean 4, of the backtesting simulation engine of the
`systrading` repository (Go): the dual-SMA `MovingAverage` strategy
(`internal/strategy`, full version) and the `Backtester` replay loop
(`internal/backtesting/backtesting.go`), together with theorems settling the
specification claims about them.

Modelling conventions:
* Go `float64` arithmetic is modelled over `ℚ`.  Division is Lean's total
  field division (`x / 0 = 0`); the Go expressions that would produce
  `Inf`/`NaN` (division by zero at a zero price or a zero peak balance)
  are modelled as `0`, which yields the same control-flow decisions in
  every comparison the engine performs on such values.
* A Go price string is abstracted to its `strconv.ParseFloat` denotation:
  `none` for a string that fails to parse, `some v` for a string parsing to
  the (finite) value `v`.  `Inf`/`NaN`-denoting strings are outside the model.
* Go `int` fields are modelled as `ℤ`; trade counters, which are only ever
  incremented from zero, as `ℕ`.
* The `strategy.Strategy` interface (a method mutating the receiver through a
  pointer) is modelled as a state type `σ` together with a transition
  function; an interface value is the pair of the transition function and the
  current state.
* `BacktestResult.StartDate` / `EndDate` are wall-clock bookkeeping and are
  omitted from the model; no claim concerns them.
-/

namespace Trading

/-- Signal-type constants (`internal/strategy`, the `BuySignal`/`SellSignal`/
`HoldSignal` string constants). -/
def BuySignal : String := "buy"

/-- Signal-type constant `"sell"`. -/
def SellSignal : String := "sell"

/-- Signal-type constant `"hold"`. -/
def HoldSignal : String := "hold"

/-- Go struct `models.Signal` (its declaration is not under `src/`; fields reconstructed
from every use in the sources: `Type` — one of the signal-type strings — and
`Amount`).  The Go field `Type` is renamed `type_` because `Type` is a Lean
keyword. -/
structure Signal where
  type_ : String
  Amount : ℚ
deriving Repr, DecidableEq

/-- Go struct `models.MarketData` (declaration not under `src/`; the core reads only the
`StckPrpr` price-string field, reconstructed from its uses in
`backtesting.go` and the strategy).  The price string is abstracted to its
parse denotation, see the file header. -/
structure MarketData where
  StckPrpr : Option ℚ
deriving Repr, DecidableEq

/-- Function `parsePrice` of `backtesting.go`: wraps `strconv.ParseFloat`, returning an
error exactly when the string fails to parse. -/
def parsePrice (priceStr : Option ℚ) : Except Unit ℚ :=
  match priceStr with
  | none => .error ()
  | some v => .ok v

/-- The `strategy.Strategy` interface: an implementation state `σ`, the
current state, and the `Analyze` transition (state mutation through the
pointer receiver made explicit). -/
structure Strategy (σ : Type) where
  state : σ
  analyze : σ → MarketData → σ × Signal

/-- Go struct `config.StrategyConfig` (`internal/config/config.go`). -/
structure StrategyConfig where
  Name : String
  ShortPeriod : ℤ
  LongPeriod : ℤ
  Threshold : ℚ
deriving Repr, DecidableEq

/-- The `MovingAverage` strategy state (`src/unnamed/part_005`, the full
version cited by the claims). -/
structure MovingAverage where
  ShortPeriod : ℤ
  LongPeriod : ℤ
  Threshold : ℚ
  PriceHistory : List ℚ
deriving Repr, DecidableEq

/-- Constructor `NewMovingAverage` (`src/unnamed/part_005` lines 27-34; the variant in
`internal/strategy/strategy.go` lines 24-30 is identical except that it lacks
the `PriceHistory` field): copies the configured fields, performing no
validation of any kind. -/
def NewMovingAverage (config : StrategyConfig) : MovingAverage :=
  { ShortPeriod := config.ShortPeriod
    LongPeriod := config.LongPeriod
    Threshold := config.Threshold
    PriceHistory := [] }

/-- Method `MovingAverage.calculateMA` (`src/unnamed/part_005` lines 73-84): `0` when
the history is shorter than `period`; otherwise the Go loop sums
`PriceHistory[len-period .. len-1]` — the last `period` elements — and divides
by `period`.  For `period ≤ 0` the guard fails, the loop body never runs and
the result is `0 / period`, modelled as `0` (the Go value is `-0.0`, or `NaN`
for `period = 0`; every comparison the engine performs on it decides the same
way). -/
def MovingAverage.calculateMA (ma : MovingAverage) (period : ℤ) : ℚ :=
  if (ma.PriceHistory.length : ℤ) < period then 0
  else (ma.PriceHistory.drop (ma.PriceHistory.length - period.toNat)).sum / (period : ℚ)

/-- Method `MovingAverage.Analyze` (`src/unnamed/part_005` lines 36-71): on a parse
failure return Hold leaving the state untouched; otherwise append the price,
drop the oldest element when the history exceeds `LongPeriod`, return Hold
while the history is shorter than `LongPeriod`, and otherwise compare the
short and long SMAs against the threshold band. -/
def MovingAverage.Analyze (ma : MovingAverage) (data : MarketData) :
    MovingAverage × Signal :=
  match data.StckPrpr with
  | none => (ma, { type_ := HoldSignal, Amount := 0 })
  | some price =>
    let hist0 := ma.PriceHistory ++ [price]
    let hist := if (hist0.length : ℤ) > ma.LongPeriod then hist0.drop 1 else hist0
    let ma1 : MovingAverage := { ma with PriceHistory := hist }
    if (hist.length : ℤ) < ma.LongPeriod then
      (ma1, { type_ := HoldSignal, Amount := 0 })
    else
      let shortMA := ma1.calculateMA ma.ShortPeriod
      let longMA := ma1.calculateMA ma.LongPeriod
      if shortMA > longMA * (1 + ma.Threshold) then
        (ma1, { type_ := BuySignal, Amount := 1 })
      else if shortMA < longMA * (1 - ma.Threshold) then
        (ma1, { type_ := SellSignal, Amount := 1 })
      else
        (ma1, { type_ := HoldSignal, Amount := 0 })

/-- The `MovingAverage` strategy as a `Strategy` interface value. -/
def MovingAverage.toStrategy (ma : MovingAverage) : Strategy MovingAverage :=
  { state := ma, analyze := MovingAverage.Analyze }

/-- Go struct `backtesting.BacktestResult` (`backtesting.go` lines 11-21), minus the two
wall-clock fields (see the file header). -/
structure BacktestResult where
  TotalTrades : ℕ
  WinningTrades : ℕ
  LosingTrades : ℕ
  TotalProfit : ℚ
  MaxDrawdown : ℚ
  WinRate : ℚ
  AverageProfitPerTrade : ℚ
deriving Repr, DecidableEq

/-- The all-zero `BacktestResult` a run starts from (Go zero value). -/
def zeroResult : BacktestResult :=
  { TotalTrades := 0, WinningTrades := 0, LosingTrades := 0, TotalProfit := 0
    MaxDrawdown := 0, WinRate := 0, AverageProfitPerTrade := 0 }

/-- Go struct `backtesting.Backtester` (`backtesting.go` lines 23-28), generic over the
strategy's state type. -/
structure Backtester (σ : Type) where
  Strategy : Strategy σ
  Data : List MarketData
  InitialBalance : ℚ
  CommissionRate : ℚ

/-- Constructor `NewBacktester` (`backtesting.go` lines 30-37). -/
def NewBacktester {σ : Type} (strat : Strategy σ) (data : List MarketData)
    (initialBalance commissionRate : ℚ) : Backtester σ :=
  { Strategy := strat, Data := data, InitialBalance := initialBalance
    CommissionRate := commissionRate }

/-- The local variables of `Backtester.Run`'s loop (`backtesting.go` lines
40-47), plus the strategy's mutable state threaded explicitly. -/
structure RunState (σ : Type) where
  stratState : σ
  balance : ℚ
  position : ℚ
  entryPrice : ℚ
  maxBalance : ℚ
  result : BacktestResult

/-- Method `Backtester.closePosition` (`backtesting.go` lines 111-123): recompute the
balance from the *initial* balance and the price ratio, classify the trade,
and accumulate the statistics.  Returns the new balance and the updated
result. -/
def Backtester.closePosition {σ : Type} (b : Backtester σ)
    (finalPrice entryPrice : ℚ) (result : BacktestResult) : ℚ × BacktestResult :=
  let balance := b.InitialBalance * finalPrice / entryPrice
  let profit := balance - b.InitialBalance
  let r1 : BacktestResult := { result with
    TotalProfit := result.TotalProfit + profit
    TotalTrades := result.TotalTrades + 1 }
  let r2 : BacktestResult :=
    if profit > 0 then { r1 with WinningTrades := r1.WinningTrades + 1 }
    else { r1 with LosingTrades := r1.LosingTrades + 1 }
  let r3 : BacktestResult := { r2 with
    AverageProfitPerTrade :=
      r2.AverageProfitPerTrade + (finalPrice - entryPrice) / entryPrice * 100 }
  (balance, r3)

/-- Method `Backtester.executeBuy` (`backtesting.go` lines 125-128): convert the
whole balance, less commission, into units at the current price; the cash
balance becomes `0`. -/
def Backtester.executeBuy {σ : Type} (b : Backtester σ)
    (balance currentPrice : ℚ) : ℚ × ℚ :=
  ((balance * (1 - b.CommissionRate)) / currentPrice, 0)

/-- Method `Backtester.executeSell` (`backtesting.go` lines 130-132): proceeds of
selling `position` units at the current price, less commission. -/
def Backtester.executeSell {σ : Type} (b : Backtester σ)
    (position currentPrice : ℚ) : ℚ :=
  position * currentPrice * (1 - b.CommissionRate)

/-- The `switch signal.Type` block of `Backtester.Run` (`backtesting.go`
lines 57-72).  In the sell branch the balance assigned from `executeSell` is
immediately overwritten by the `closePosition` assignment, exactly as in the
source, where the `executeSell` result is a dead store. -/
def Backtester.stepTrade {σ : Type} (b : Backtester σ) (s : RunState σ)
    (signalType : String) (currentPrice : ℚ) : RunState σ :=
  if signalType = BuySignal then
    if s.position = 0 then
      let pb := b.executeBuy s.balance currentPrice
      { s with position := pb.1, balance := pb.2, entryPrice := currentPrice
               result := { s.result with TotalTrades := s.result.TotalTrades + 1 } }
    else s
  else if signalType = SellSignal then
    if s.position > 0 then
      let deadBalance := b.executeSell s.position currentPrice
      let br := b.closePosition currentPrice s.entryPrice s.result
      let _ := deadBalance
      { s with balance := br.1, result := br.2, position := 0, entryPrice := 0 }
    else s
  else s

/-- The mark-to-market / drawdown block of `Backtester.Run` (`backtesting.go`
lines 74-84): equity is the cash balance when flat, `position × price` when
long; the peak and the high-water-mark drawdown are updated with strict
comparisons. -/
def RunState.stepMark {σ : Type} (s : RunState σ) (currentPrice : ℚ) :
    RunState σ :=
  let currentBalance := if s.position > 0 then s.position * currentPrice else s.balance
  let maxBalance := if currentBalance > s.maxBalance then currentBalance else s.maxBalance
  let drawdown := (maxBalance - currentBalance) / maxBalance
  let result :=
    if drawdown > s.result.MaxDrawdown then { s.result with MaxDrawdown := drawdown }
    else s.result
  { s with maxBalance := maxBalance, result := result }

/-- One iteration of `Backtester.Run`'s loop (`backtesting.go` lines 49-85):
the strategy is invoked first, then the price is parsed — a parse failure
`continue`s, skipping the trade and drawdown blocks but keeping the already
performed strategy invocation. -/
def Backtester.step {σ : Type} (b : Backtester σ) (s : RunState σ)
    (data : MarketData) : RunState σ :=
  let ar := b.Strategy.analyze s.stratState data
  let s1 : RunState σ := { s with stratState := ar.1 }
  match parsePrice data.StckPrpr with
  | .error _ => s1
  | .ok currentPrice => (b.stepTrade s1 ar.2.type_ currentPrice).stepMark currentPrice

/-- The loop's initial state (`backtesting.go` lines 41-47). -/
def Backtester.initState {σ : Type} (b : Backtester σ) : RunState σ :=
  { stratState := b.Strategy.state, balance := b.InitialBalance, position := 0
    entryPrice := 0, maxBalance := b.InitialBalance, result := zeroResult }

/-- The state after the `for` loop of `Backtester.Run` has consumed the whole
series. -/
def Backtester.runLoop {σ : Type} (b : Backtester σ) : RunState σ :=
  b.Data.foldl b.step b.initState

/-- The state after the end-of-run force close (`backtesting.go` lines
87-93): a still-open position is closed at the last observation's price when
that price parses.  The source indexes `Data[len(Data)-1]` unconditionally
inside the `position > 0` guard; the `none` branch of `getLast?` models the
empty-data case, which is unreachable because an empty run keeps the
position flat. -/
def Backtester.runFinal {σ : Type} (b : Backtester σ) : RunState σ :=
  let s := b.runLoop
  if s.position > 0 then
    match b.Data.getLast? with
    | some d =>
      match parsePrice d.StckPrpr with
      | .ok finalPrice =>
        let br := b.closePosition finalPrice s.entryPrice s.result
        { s with balance := br.1, result := br.2 }
      | .error _ => s
    | none => s
  else s

/-- Method `Backtester.Run` (`backtesting.go` lines 39-101): loop, force close, then
finalize the derived statistics, guarded by `TotalTrades > 0`. -/
def Backtester.Run {σ : Type} (b : Backtester σ) : BacktestResult :=
  let result := b.runFinal.result
  if result.TotalTrades > 0 then
    { result with
      WinRate := (result.WinningTrades : ℚ) / (result.TotalTrades : ℚ)
      AverageProfitPerTrade :=
        result.AverageProfitPerTrade / (result.TotalTrades : ℚ) }
  else result

/-- Replay of a whole observation series through `Analyze`, collecting the
emitted signals: the driver behind the spec's "for all price series ...
every signal returned" phrasing. -/
def MovingAverage.analyzeAll (ma : MovingAverage) :
    List MarketData → MovingAverage × List Signal
  | [] => (ma, [])
  | d :: ds =>
    let r := ma.Analyze d
    let rest := r.1.analyzeAll ds
    (rest.1, r.2 :: rest.2)

/-- Modelled from the spec: the arithmetic mean of the most recent `k` prices
of a history (`List.rtake k` is the length-`k` tail segment).  Used to state
the SMA claims in the spec's own vocabulary and compared against the source's
`calculateMA`. -/
def smaSpec (hist : List ℚ) (k : ℕ) : ℚ := (hist.rtake k).sum / (k : ℚ)

/-- Agreement of two backtest results on every statistic except
`MaxDrawdown` (the one field the commission rate can reach). -/
def statsAgree (r1 r2 : BacktestResult) : Prop :=
  r1.TotalTrades = r2.TotalTrades ∧ r1.WinningTrades = r2.WinningTrades ∧
  r1.LosingTrades = r2.LosingTrades ∧ r1.TotalProfit = r2.TotalProfit ∧
  r1.WinRate = r2.WinRate ∧ r1.AverageProfitPerTrade = r2.AverageProfitPerTrade

/-- Coupling of the loop states of two runs that differ only in the
commission rate: everything the statistics can observe agrees; the position
sizes may differ but agree in sign class, which is all the branch guards
inspect. -/
def relState {σ : Type} (s1 s2 : RunState σ) : Prop :=
  s1.stratState = s2.stratState ∧ s1.balance = s2.balance ∧
  s1.entryPrice = s2.entryPrice ∧
  (s1.position = 0 ↔ s2.position = 0) ∧ (0 < s1.position ↔ 0 < s2.position) ∧
  statsAgree s1.result s2.result

/-- A scripted test strategy: emits a fixed list of signal types, one per
`Analyze` call, then holds.  A concrete instance of the `Strategy`
interface used by the counterexample runs. -/
def scripted (sigs : List String) : Strategy (List String) :=
  { state := sigs
    analyze := fun st _ =>
      match st with
      | [] => ([], { type_ := HoldSignal, Amount := 0 })
      | t :: rest => (rest, { type_ := t, Amount := 1 }) }

/-- A test strategy that counts its `Analyze` invocations and always holds:
makes a strategy invocation observable in the final state. -/
def counting : Strategy ℕ :=
  { state := 0, analyze := fun n _ => (n + 1, { type_ := HoldSignal, Amount := 0 }) }

/-- The spec's literal commission scenario: initial balance 10,000,000,
commission rate 0.0025, one Buy at price 100 followed by one Sell at the
higher price 110. -/
def btCommission : Backtester (List String) :=
  NewBacktester (scripted [BuySignal, SellSignal])
    [⟨some 100⟩, ⟨some 110⟩] 10000000 (1 / 400)

/-- A backtester whose single observation has an unparseable price string. -/
def btBadObs : Backtester ℕ := NewBacktester counting [⟨none⟩] 1000 0

/-! Helper lemmas. -/

lemma buy_eq_buy : ("buy" = "buy") = True := by simp

lemma sell_eq_buy : ("sell" = "buy") = False := by simp

lemma hold_eq_buy : ("hold" = "buy") = False := by simp

lemma sell_eq_sell : ("sell" = "sell") = True := by simp

lemma hold_eq_sell : ("hold" = "sell") = False := by simp

lemma foldl_preserve {α β : Type} {P : β → Prop} {f : β → α → β}
    (hstep : ∀ x a, P x → P (f x a)) :
    ∀ (l : List α) (x : β), P x → P (l.foldl f x) := by
  intro l
  induction l with
  | nil => intro x hx; exact hx
  | cons a t ih => intro x hx; exact ih _ (hstep x a hx)

lemma foldl_rel {α β : Type} {R : β → β → Prop} {f g : β → α → β}
    (hstep : ∀ x y a, R x y → R (f x a) (g y a)) :
    ∀ (l : List α) (x y : β), R x y → R (l.foldl f x) (l.foldl g y) := by
  intro l
  induction l with
  | nil => intro x y h; exact h
  | cons a t ih => intro x y h; exact ih _ _ (hstep x y a h)

lemma ite_gt_eq_max (a c : ℚ) : (if c > a then c else a) = max a c := by
  rcases le_or_lt c a with h | h
  · rw [if_neg (not_lt.mpr h), max_eq_left h]
  · rw [if_pos h, max_eq_right h.le]

/-- Everything `stepMark` leaves untouched: all loop variables except the
peak balance, and all statistics except `MaxDrawdown`. -/
lemma stepMark_fields {σ : Type} (s : RunState σ) (v : ℚ) :
    (s.stepMark v).stratState = s.stratState ∧
    (s.stepMark v).balance = s.balance ∧
    (s.stepMark v).position = s.position ∧
    (s.stepMark v).entryPrice = s.entryPrice ∧
    (s.stepMark v).result.TotalTrades = s.result.TotalTrades ∧
    (s.stepMark v).result.WinningTrades = s.result.WinningTrades ∧
    (s.stepMark v).result.LosingTrades = s.result.LosingTrades ∧
    (s.stepMark v).result.TotalProfit = s.result.TotalProfit ∧
    (s.stepMark v).result.WinRate = s.result.WinRate ∧
    (s.stepMark v).result.AverageProfitPerTrade = s.result.AverageProfitPerTrade := by
  simp only [RunState.stepMark]
  repeat' apply And.intro
  all_goals first
    | trivial
    | ((repeat' split) <;> rfl)

/-- Everything `closePosition` does to the statistics record. -/
lemma closePosition_result {σ : Type} (b : Backtester σ) (p e : ℚ)
    (r : BacktestResult) :
    (b.closePosition p e r).2.TotalTrades = r.TotalTrades + 1 ∧
    (b.closePosition p e r).2.WinningTrades + (b.closePosition p e r).2.LosingTrades
      = r.WinningTrades + r.LosingTrades + 1 ∧
    (b.closePosition p e r).2.MaxDrawdown = r.MaxDrawdown ∧
    (b.closePosition p e r).2.WinRate = r.WinRate := by
  simp only [Backtester.closePosition]
  split <;> simp <;> omega

/-- Everything `stepTrade` leaves untouched, and the count inequality it
preserves. -/
lemma stepTrade_fields {σ : Type} (b : Backtester σ) (s : RunState σ)
    (sig : String) (v : ℚ) :
    (b.stepTrade s sig v).stratState = s.stratState ∧
    (b.stepTrade s sig v).maxBalance = s.maxBalance ∧
    (b.stepTrade s sig v).result.MaxDrawdown = s.result.MaxDrawdown ∧
    (b.stepTrade s sig v).result.WinRate = s.result.WinRate := by
  simp only [Backtester.stepTrade]
  have hc := closePosition_result b v s.entryPrice s.result
  split
  · split <;> simp
  · split
    · split
      · exact ⟨rfl, rfl, hc.2.2.1, hc.2.2.2⟩
      · exact ⟨rfl, rfl, rfl, rfl⟩
    · exact ⟨rfl, rfl, rfl, rfl⟩

/-- A loop iteration on an unparseable observation updates only the strategy
state. -/
lemma step_none {σ : Type} (b : Backtester σ) (s : RunState σ) (d : MarketData)
    (h : d.StckPrpr = none) :
    b.step s d = { s with stratState := (b.Strategy.analyze s.stratState d).1 } := by
  simp only [Backtester.step, parsePrice, h]

/-- A loop iteration on a parsed observation is the trade switch followed by
the mark-to-market block, after the strategy invocation. -/
lemma step_some {σ : Type} (b : Backtester σ) (s : RunState σ) (d : MarketData)
    (v : ℚ) (h : d.StckPrpr = some v) :
    b.step s d =
      (b.stepTrade { s with stratState := (b.Strategy.analyze s.stratState d).1 }
        (b.Strategy.analyze s.stratState d).2.type_ v).stepMark v := by
  simp only [Backtester.step, parsePrice, h]

/-- The peak-equity and drawdown updates of `stepMark`, as running maxima. -/
lemma stepMark_max_eq {σ : Type} (s : RunState σ) (v : ℚ) :
    (s.stepMark v).maxBalance
      = max s.maxBalance (if 0 < s.position then s.position * v else s.balance) ∧
    (s.stepMark v).result.MaxDrawdown
      = max s.result.MaxDrawdown
          (((s.stepMark v).maxBalance
              - (if 0 < s.position then s.position * v else s.balance))
            / (s.stepMark v).maxBalance) := by
  simp only [RunState.stepMark]
  constructor
  · exact ite_gt_eq_max _ _
  · rw [← ite_gt_eq_max]
    (repeat' split) <;> rfl

/-- The count inequality is preserved by one trade switch. -/
lemma stepTrade_counts {σ : Type} (b : Backtester σ) (s : RunState σ)
    (sig : String) (v : ℚ)
    (h : s.result.WinningTrades + s.result.LosingTrades ≤ s.result.TotalTrades) :
    (b.stepTrade s sig v).result.WinningTrades
        + (b.stepTrade s sig v).result.LosingTrades
      ≤ (b.stepTrade s sig v).result.TotalTrades := by
  simp only [Backtester.stepTrade]
  have hc := closePosition_result b v s.entryPrice s.result
  split
  · split
    · simpa using Nat.le_succ_of_le h
    · exact h
  · split
    · split
      · rw [hc.1, hc.2.1]; omega
      · exact h
    · exact h

/-- The count inequality is preserved by one whole loop iteration. -/
lemma step_counts {σ : Type} (b : Backtester σ) (s : RunState σ) (d : MarketData)
    (h : s.result.WinningTrades + s.result.LosingTrades ≤ s.result.TotalTrades) :
    (b.step s d).result.WinningTrades + (b.step s d).result.LosingTrades
      ≤ (b.step s d).result.TotalTrades := by
  cases hp : d.StckPrpr with
  | none => rw [step_none b s d hp]; exact h
  | some v =>
    rw [step_some b s d v hp]
    have hm := stepMark_fields
      (b.stepTrade { s with stratState := (b.Strategy.analyze s.stratState d).1 }
        (b.Strategy.analyze s.stratState d).2.type_ v) v
    rw [hm.2.2.2.2.1, hm.2.2.2.2.2.1, hm.2.2.2.2.2.2.1]
    exact stepTrade_counts b _ _ v h

/-- The history produced by `Analyze` on a parsed price: the appended list,
minus its head when it exceeds the long window. -/
lemma analyze_fst_hist (ma : MovingAverage) (v : ℚ) :
    ((ma.Analyze ⟨some v⟩).1).PriceHistory =
      if ((ma.PriceHistory ++ [v]).length : ℤ) > ma.LongPeriod then
        (ma.PriceHistory ++ [v]).drop 1
      else ma.PriceHistory ++ [v] := by
  simp only [MovingAverage.Analyze]
  (repeat' split) <;> rfl

/-- The configuration fields of the strategy are never changed by `Analyze`. -/
lemma analyze_pres_config (ma : MovingAverage) (d : MarketData) :
    ((ma.Analyze d).1).ShortPeriod = ma.ShortPeriod ∧
    ((ma.Analyze d).1).LongPeriod = ma.LongPeriod ∧
    ((ma.Analyze d).1).Threshold = ma.Threshold := by
  simp only [MovingAverage.Analyze]
  (repeat' split) <;> exact ⟨rfl, rfl, rfl⟩

/-! Claim theorems. -/

/-- C10: on an empty price series `Run` is total: the loop leaves the
position flat, so the end-of-run force close (which would index the last
element of the data) never executes, and the returned result is the all-zero
record. -/
theorem run_empty_series_total :
    ∀ (σ : Type) (strat : Strategy σ) (ib c : ℚ),
      (NewBacktester strat [] ib c).runLoop.position = 0 ∧
      (NewBacktester strat [] ib c).Run = zeroResult := by
  intro σ strat ib c
  refine ⟨rfl, ?_⟩
  simp [Backtester.Run, Backtester.runFinal, Backtester.runLoop,
    Backtester.initState, NewBacktester, zeroResult]

/-- C2 (amended): at every point of a run, and in the finalized result,
`winningTrades + losingTrades ≤ totalTrades`.  The equality claimed at
finalization does not hold in general: `totalTrades` is also incremented when
a position is opened, not only when it is closed. -/
theorem trade_counts_le :
    ∀ (σ : Type) (b : Backtester σ) (l : List MarketData),
      ((l.foldl b.step b.initState).result.WinningTrades
          + (l.foldl b.step b.initState).result.LosingTrades
        ≤ (l.foldl b.step b.initState).result.TotalTrades) ∧
      (b.Run.WinningTrades + b.Run.LosingTrades ≤ b.Run.TotalTrades) := by
  intro σ b l
  have hinit : b.initState.result.WinningTrades + b.initState.result.LosingTrades
      ≤ b.initState.result.TotalTrades := by
    simp [Backtester.initState, zeroResult]
  have hfold := foldl_preserve
    (P := fun s : RunState σ =>
      s.result.WinningTrades + s.result.LosingTrades ≤ s.result.TotalTrades)
    (fun s d h => step_counts b s d h)
  refine ⟨hfold l b.initState hinit, ?_⟩
  have hloop : b.runLoop.result.WinningTrades + b.runLoop.result.LosingTrades
      ≤ b.runLoop.result.TotalTrades := hfold b.Data b.initState hinit
  have hfin : b.runFinal.result.WinningTrades + b.runFinal.result.LosingTrades
      ≤ b.runFinal.result.TotalTrades := by
    simp only [Backtester.runFinal]
    split
    · split
      · split
        · rename_i d hd v hv
          have hc := closePosition_result b v b.runLoop.entryPrice b.runLoop.result
          rw [hc.1, hc.2.1]  -- may need reorder
          omega
        · exact hloop
      · exact hloop
    · exact hloop
  simp only [Backtester.Run]
  split
  · exact hfin
  · exact hfin

/-- C2 counterexample: in the spec's own commission scenario (one Buy then
one Sell) the finalized result has `totalTrades = 2` but
`winningTrades + losingTrades = 1` — the claimed equality fails. -/
theorem trade_counts_not_eq :
    btCommission.Run.WinningTrades + btCommission.Run.LosingTrades
      ≠ btCommission.Run.TotalTrades := by
  norm_num [btCommission, scripted, NewBacktester, Backtester.Run,
    Backtester.runFinal, Backtester.runLoop, Backtester.initState,
    Backtester.step, Backtester.stepTrade, RunState.stepMark,
    Backtester.closePosition, Backtester.executeBuy, Backtester.executeSell,
    parsePrice, zeroResult, BuySignal, SellSignal, HoldSignal, List.foldl,
    buy_eq_buy, sell_eq_buy, hold_eq_buy, sell_eq_sell, hold_eq_sell]

/-- C3 (amended): constructing a `MovingAverage` strategy never fails — even
when `shortPeriod ≥ longPeriod` the constructor performs no validation and
returns an instance carrying the configured fields unchanged, with an empty
history. -/
theorem construction_never_fails :
    ∀ cfg : StrategyConfig, cfg.LongPeriod ≤ cfg.ShortPeriod →
      NewMovingAverage cfg =
        { ShortPeriod := cfg.ShortPeriod, LongPeriod := cfg.LongPeriod
          Threshold := cfg.Threshold, PriceHistory := [] } := by
  intro cfg _
  rfl

/-- Witness for `construction_never_fails` at the concrete invalid
configuration `shortPeriod = 10 ≥ 5 = longPeriod`. -/
theorem construction_never_fails_witness :
    (5 : ℤ) ≤ 10 ∧
    NewMovingAverage ⟨"ma", 10, 5, 0⟩ =
      { ShortPeriod := 10, LongPeriod := 5, Threshold := 0, PriceHistory := [] } :=
  ⟨by decide, construction_never_fails ⟨"ma", 10, 5, 0⟩ (by decide)⟩

/-- C3 counterexample: a configuration with `shortPeriod = 10 ≥ 5 =
longPeriod` does not fail at construction: the constructor returns an
instance, and that instance is usable — its `Analyze` runs and returns a
signal. -/
theorem invalid_config_constructs :
    NewMovingAverage ⟨"ma", 10, 5, 0⟩ =
      { ShortPeriod := 10, LongPeriod := 5, Threshold := 0, PriceHistory := [] } ∧
    ((NewMovingAverage ⟨"ma", 10, 5, 0⟩).Analyze ⟨some 1⟩).2.type_ = HoldSignal := by
  exact ⟨rfl, rfl⟩

/-- C4 (amended): on a parse failure `Analyze` returns Hold and leaves the
strategy state exactly as it was; but any *successfully parsed* price is
appended to the history regardless of its sign — parse success, not
non-negativity, decides appending. -/
theorem analyze_parse_failure_and_append :
    ∀ (ma : MovingAverage) (d : MarketData),
      (d.StckPrpr = none →
        ma.Analyze d = (ma, { type_ := HoldSignal, Amount := 0 })) ∧
      (∀ v : ℚ, d.StckPrpr = some v → 0 < ma.LongPeriod →
        ((ma.Analyze d).1).PriceHistory.getLast? = some v) := by
  intro ma d
  constructor
  · intro h
    simp [MovingAverage.Analyze, h]
  · intro v h hlong
    obtain ⟨p⟩ := d
    cases h
    rw [analyze_fst_hist]
    split
    · rename_i hcap
      have hl : ma.PriceHistory ≠ [] := by
        intro hnil
        rw [hnil] at hcap
        simp at hcap
        omega
      rw [List.drop_append_of_le_length
        (by simpa using List.length_pos.mpr hl)]
      exact List.getLast?_concat _
    · exact List.getLast?_concat _

/-- Witness for `analyze_parse_failure_and_append`: a parse failure holds and
keeps the state; the parsed price 7 ends up as the most recent history
element. -/
theorem analyze_parse_failure_and_append_witness :
    ((⟨2, 3, 0, []⟩ : MovingAverage).Analyze ⟨none⟩
      = (⟨2, 3, 0, []⟩, { type_ := HoldSignal, Amount := 0 })) ∧
    (((⟨2, 3, 0, []⟩ : MovingAverage).Analyze ⟨some 7⟩).1).PriceHistory.getLast?
      = some 7 :=
  ⟨(analyze_parse_failure_and_append ⟨2, 3, 0, []⟩ ⟨none⟩).1 rfl,
   (analyze_parse_failure_and_append ⟨2, 3, 0, []⟩ ⟨some 7⟩).2 7 rfl (by decide)⟩

/-- C4 counterexample: the price string `"-5"` parses to the negative number
`-5` — hence does not parse to a non-negative number — yet `Analyze` appends
it to the history instead of leaving the state untouched. -/
theorem negative_price_appended :
    (((⟨2, 3, 0, []⟩ : MovingAverage).Analyze ⟨some (-5)⟩).1).PriceHistory = [-5] ∧
    ((-5 : ℚ) < 0) := by
  refine ⟨rfl, by norm_num⟩

/-- C5 (amended): an observation whose price fails to parse causes no
position, balance, statistics or drawdown update — the iteration returns the
state unchanged except for the strategy's own state, because the strategy's
`Analyze` IS invoked on the observation before the parse, and processing
continues with the next observation. -/
theorem skip_preserves_engine_state :
    ∀ (σ : Type) (b : Backtester σ) (s : RunState σ) (d : MarketData),
      d.StckPrpr = none →
      b.step s d = { s with stratState := (b.Strategy.analyze s.stratState d).1 } := by
  intro σ b s d h
  exact step_none b s d h

/-- Witness for `skip_preserves_engine_state` on the concrete one-observation
backtester whose price string does not parse. -/
theorem skip_preserves_engine_state_witness :
    btBadObs.step btBadObs.initState ⟨none⟩
      = { btBadObs.initState with
          stratState :=
            (btBadObs.Strategy.analyze btBadObs.initState.stratState ⟨none⟩).1 } :=
  skip_preserves_engine_state ℕ btBadObs btBadObs.initState ⟨none⟩ rfl

/-- C5 counterexample: the claim that no signal evaluation is performed for
an unparseable observation is false — `Run` invokes the strategy before
parsing, so the invocation-counting strategy ends the run with count 1, not
0, on a single unparseable observation. -/
theorem strategy_invoked_on_bad_obs :
    btBadObs.runLoop.stratState = 1 ∧ btBadObs.runLoop.stratState ≠ 0 :=
  ⟨rfl, by decide⟩

/-- C1 (code bug): in the spec's literal commission scenario (initial
balance 10,000,000, commission rate 1/400 = 0.0025, one Buy at 100 followed
by one Sell at 110) the loop's final balance is the frictionless
10,000,000 × 110/100 = 11,000,000 and the reported total profit the
frictionless 1,000,000: `closePosition` recomputes the balance from the
initial balance and the price ratio, discarding the commission-adjusted
proceeds `executeSell` had just produced, so the claimed balance
frictionless × (1 − c)² = 10,945,068.75 is NOT what the code reports. -/
theorem commission_discarded_on_close :
    btCommission.runLoop.balance = 11000000 ∧
    btCommission.Run.TotalProfit = 1000000 ∧
    (10000000 * (110 / 100) * ((1 : ℚ) - 1 / 400) ^ 2 ≠ 11000000) := by
  refine ⟨?_, ?_, by norm_num⟩ <;>
    norm_num [btCommission, scripted, NewBacktester, Backtester.Run,
      Backtester.runFinal, Backtester.runLoop, Backtester.initState,
      Backtester.step, Backtester.stepTrade, RunState.stepMark,
      Backtester.closePosition, Backtester.executeBuy, Backtester.executeSell,
      parsePrice, zeroResult, BuySignal, SellSignal, HoldSignal, List.foldl,
      buy_eq_buy, sell_eq_buy, hold_eq_buy, sell_eq_sell, hold_eq_sell]

/-- C7: after every parsed observation the engine recomputes the
mark-to-market equity (cash balance when flat, position × price when long,
with the position/balance as of after the trade switch), updates the peak to
the running maximum, and sets `MaxDrawdown` to
`max previous ((peak - equity) / peak)` — in particular the drawdown never
decreases during the loop, and neither the force close nor the finalization
changes it, so the final `MaxDrawdown` is the loop's high-water-mark value. -/
theorem drawdown_high_water_mark :
    (∀ (σ : Type) (b : Backtester σ) (s : RunState σ) (d : MarketData) (v : ℚ),
      d.StckPrpr = some v →
      ((b.step s d).maxBalance
          = max s.maxBalance
              (if 0 < (b.step s d).position then (b.step s d).position * v
               else (b.step s d).balance)) ∧
      ((b.step s d).result.MaxDrawdown
          = max s.result.MaxDrawdown
              (((b.step s d).maxBalance
                  - (if 0 < (b.step s d).position then (b.step s d).position * v
                     else (b.step s d).balance))
                / (b.step s d).maxBalance)) ∧
      (s.result.MaxDrawdown ≤ (b.step s d).result.MaxDrawdown)) ∧
    (∀ (σ : Type) (b : Backtester σ),
      b.Run.MaxDrawdown = b.runLoop.result.MaxDrawdown) := by
  constructor
  · intro σ b s d v h
    rw [step_some b s d v h]
    have hm := stepMark_fields
      (b.stepTrade { s with stratState := (b.Strategy.analyze s.stratState d).1 }
        (b.Strategy.analyze s.stratState d).2.type_ v) v
    have hx := stepMark_max_eq
      (b.stepTrade { s with stratState := (b.Strategy.analyze s.stratState d).1 }
        (b.Strategy.analyze s.stratState d).2.type_ v) v
    have ht := stepTrade_fields b
      { s with stratState := (b.Strategy.analyze s.stratState d).1 }
      (b.Strategy.analyze s.stratState d).2.type_ v
    refine ⟨?_, ?_, ?_⟩
    · rw [hm.2.2.1, hm.2.1, hx.1, ht.2.1]
    · rw [hm.2.2.1, hm.2.1, hx.2, ht.2.2.1]
    · rw [hx.2, ht.2.2.1]
      exact le_max_left _ _
  · intro σ b
    have hfin : b.runFinal.result.MaxDrawdown = b.runLoop.result.MaxDrawdown := by
      simp only [Backtester.runFinal]
      split
      · split
        · split
          · rename_i d hd v hv
            exact (closePosition_result b v b.runLoop.entryPrice b.runLoop.result).2.2.1
          · rfl
        · rfl
      · rfl
    rw [← hfin]
    simp only [Backtester.Run]
    split <;> rfl

/-- Witness for `drawdown_high_water_mark` at a concrete parsed
observation. -/
theorem drawdown_high_water_mark_witness :
    (btBadObs.step btBadObs.initState ⟨some 5⟩).maxBalance
      = max btBadObs.initState.maxBalance
          (if 0 < (btBadObs.step btBadObs.initState ⟨some 5⟩).position then
             (btBadObs.step btBadObs.initState ⟨some 5⟩).position * 5
           else (btBadObs.step btBadObs.initState ⟨some 5⟩).balance) :=
  (drawdown_high_water_mark.1 ℕ btBadObs btBadObs.initState ⟨some 5⟩ 5 rfl).1

/-- One trade switch preserves the zero-trade guard invariant: the win rate
stays at its zero default, and the average-profit accumulator stays zero
whenever no trade has been counted. -/
lemma stepTrade_zeroInv {σ : Type} (b : Backtester σ) (s : RunState σ)
    (sig : String) (v : ℚ)
    (h : s.result.WinRate = 0 ∧
      (s.result.TotalTrades = 0 → s.result.AverageProfitPerTrade = 0)) :
    (b.stepTrade s sig v).result.WinRate = 0 ∧
    ((b.stepTrade s sig v).result.TotalTrades = 0 →
      (b.stepTrade s sig v).result.AverageProfitPerTrade = 0) := by
  have hc := closePosition_result b v s.entryPrice s.result
  simp only [Backtester.stepTrade]
  split
  · split
    · exact ⟨h.1, by intro h0; simp at h0⟩
    · exact h
  · split
    · split
      · refine ⟨by rw [hc.2.2.2]; exact h.1, ?_⟩
        intro h0
        rw [hc.1] at h0
        omega
      · exact h
    · exact h

/-- One loop iteration preserves the zero-trade guard invariant. -/
lemma step_zeroInv {σ : Type} (b : Backtester σ) (s : RunState σ) (d : MarketData)
    (h : s.result.WinRate = 0 ∧
      (s.result.TotalTrades = 0 → s.result.AverageProfitPerTrade = 0)) :
    (b.step s d).result.WinRate = 0 ∧
    ((b.step s d).result.TotalTrades = 0 →
      (b.step s d).result.AverageProfitPerTrade = 0) := by
  cases hp : d.StckPrpr with
  | none => rw [step_none b s d hp]; exact h
  | some v =>
    rw [step_some b s d v hp]
    have hm := stepMark_fields
      (b.stepTrade { s with stratState := (b.Strategy.analyze s.stratState d).1 }
        (b.Strategy.analyze s.stratState d).2.type_ v) v
    rw [hm.2.2.2.2.1, hm.2.2.2.2.2.2.2.2.1, hm.2.2.2.2.2.2.2.2.2]
    exact stepTrade_zeroInv b _ _ v h

/-- C8: if the run counted no trades, finalization performs no division and
`WinRate` and `AverageProfitPerTrade` remain at their zero defaults; if it
counted trades, `WinRate` is `winningTrades / totalTrades` and
`AverageProfitPerTrade` is the accumulated per-trade percentage divided by
`totalTrades` — no division by zero is reachable. -/
theorem finalization_division_guard :
    ∀ (σ : Type) (b : Backtester σ),
      (b.Run.TotalTrades = 0 →
        b.Run.WinRate = 0 ∧ b.Run.AverageProfitPerTrade = 0) ∧
      (0 < b.Run.TotalTrades →
        b.Run.WinRate = (b.Run.WinningTrades : ℚ) / (b.Run.TotalTrades : ℚ) ∧
        b.Run.AverageProfitPerTrade
          = b.runFinal.result.AverageProfitPerTrade / (b.Run.TotalTrades : ℚ)) := by
  intro σ b
  have hinit : b.initState.result.WinRate = 0 ∧
      (b.initState.result.TotalTrades = 0 →
        b.initState.result.AverageProfitPerTrade = 0) := by
    exact ⟨rfl, fun _ => rfl⟩
  have hloop := foldl_preserve
    (P := fun s : RunState σ =>
      s.result.WinRate = 0 ∧
      (s.result.TotalTrades = 0 → s.result.AverageProfitPerTrade = 0))
    (fun s d hh => step_zeroInv b s d hh) b.Data b.initState hinit
  have hinv : b.runFinal.result.WinRate = 0 ∧
      (b.runFinal.result.TotalTrades = 0 →
        b.runFinal.result.AverageProfitPerTrade = 0) := by
    have hc := fun (p : ℚ) =>
      closePosition_result b p b.runLoop.entryPrice b.runLoop.result
    simp only [Backtester.runFinal]
    split
    · split
      · split
        · rename_i d hd v hv
          refine ⟨by rw [(hc v).2.2.2]; exact hloop.1, ?_⟩
          intro h0
          rw [(hc v).1] at h0
          omega
        · exact hloop
      · exact hloop
    · exact hloop
  have hT : b.Run.TotalTrades = b.runFinal.result.TotalTrades := by
    simp only [Backtester.Run]; split <;> rfl
  constructor
  · intro h0
    have ht : ¬ (b.runFinal.result.TotalTrades > 0) := by omega
    have hrun : b.Run = b.runFinal.result := by
      simp only [Backtester.Run]; rw [if_neg ht]
    rw [hrun]
    exact ⟨hinv.1, hinv.2 (by omega)⟩
  · intro hpos
    have ht : b.runFinal.result.TotalTrades > 0 := by omega
    have hrun : b.Run =
        { b.runFinal.result with
          WinRate := (b.runFinal.result.WinningTrades : ℚ)
            / (b.runFinal.result.TotalTrades : ℚ)
          AverageProfitPerTrade := b.runFinal.result.AverageProfitPerTrade
            / (b.runFinal.result.TotalTrades : ℚ) } := by
      simp only [Backtester.Run]; rw [if_pos ht]
    rw [hrun]
    exact ⟨rfl, rfl⟩

/-- Witness for `finalization_division_guard`: the zero-trade case on an
empty run, and the positive case on the two-trade commission scenario. -/
theorem finalization_division_guard_witness :
    ((NewBacktester counting [] (1000 : ℚ) 0).Run.WinRate = 0 ∧
     (NewBacktester counting [] (1000 : ℚ) 0).Run.AverageProfitPerTrade = 0) ∧
    (btCommission.Run.WinRate
        = (btCommission.Run.WinningTrades : ℚ) / (btCommission.Run.TotalTrades : ℚ) ∧
     btCommission.Run.AverageProfitPerTrade
        = btCommission.runFinal.result.AverageProfitPerTrade
            / (btCommission.Run.TotalTrades : ℚ)) :=
  ⟨(finalization_division_guard _ _).1 rfl,
   (finalization_division_guard _ _).2 (by
    norm_num [btCommission, scripted, NewBacktester, Backtester.Run,
      Backtester.runFinal, Backtester.runLoop, Backtester.initState,
      Backtester.step, Backtester.stepTrade, RunState.stepMark,
      Backtester.closePosition, Backtester.executeBuy, Backtester.executeSell,
      parsePrice, zeroResult, BuySignal, SellSignal, HoldSignal, List.foldl,
      buy_eq_buy, sell_eq_buy, hold_eq_buy, sell_eq_sell, hold_eq_sell])⟩

/-- The source's tail-sum mean agrees with the spec's most-recent-k mean
whenever the window holds at least `period` elements. -/
lemma calcMA_eq_smaSpec (ma : MovingAverage) (p : ℤ) (hp : 0 ≤ p)
    (hlen : p ≤ (ma.PriceHistory.length : ℤ)) :
    ma.calculateMA p = smaSpec ma.PriceHistory p.toNat := by
  simp only [MovingAverage.calculateMA, smaSpec, List.rtake]
  rw [if_neg (not_lt.mpr hlen)]
  congr 1
  exact_mod_cast (Int.toNat_of_nonneg hp).symm

/-- Unfolding equation for `Analyze` on a parsed price, with the capped
history written out explicitly. -/
lemma analyze_some (ma : MovingAverage) (v : ℚ) :
    ma.Analyze ⟨some v⟩ =
      (if (((if ((ma.PriceHistory ++ [v]).length : ℤ) > ma.LongPeriod then
              (ma.PriceHistory ++ [v]).drop 1
            else ma.PriceHistory ++ [v]).length : ℤ)) < ma.LongPeriod then
         ({ ma with PriceHistory :=
            if ((ma.PriceHistory ++ [v]).length : ℤ) > ma.LongPeriod then
              (ma.PriceHistory ++ [v]).drop 1
            else ma.PriceHistory ++ [v] },
          { type_ := HoldSignal, Amount := 0 })
       else if ({ ma with PriceHistory :=
            if ((ma.PriceHistory ++ [v]).length : ℤ) > ma.LongPeriod then
              (ma.PriceHistory ++ [v]).drop 1
            else ma.PriceHistory ++ [v] } : MovingAverage).calculateMA ma.ShortPeriod
           > ({ ma with PriceHistory :=
            if ((ma.PriceHistory ++ [v]).length : ℤ) > ma.LongPeriod then
              (ma.PriceHistory ++ [v]).drop 1
            else ma.PriceHistory ++ [v] } : MovingAverage).calculateMA ma.LongPeriod
              * (1 + ma.Threshold) then
         ({ ma with PriceHistory :=
            if ((ma.PriceHistory ++ [v]).length : ℤ) > ma.LongPeriod then
              (ma.PriceHistory ++ [v]).drop 1
            else ma.PriceHistory ++ [v] },
          { type_ := BuySignal, Amount := 1 })
       else if ({ ma with PriceHistory :=
            if ((ma.PriceHistory ++ [v]).length : ℤ) > ma.LongPeriod then
              (ma.PriceHistory ++ [v]).drop 1
            else ma.PriceHistory ++ [v] } : MovingAverage).calculateMA ma.ShortPeriod
           < ({ ma with PriceHistory :=
            if ((ma.PriceHistory ++ [v]).length : ℤ) > ma.LongPeriod then
              (ma.PriceHistory ++ [v]).drop 1
            else ma.PriceHistory ++ [v] } : MovingAverage).calculateMA ma.LongPeriod
              * (1 - ma.Threshold) then
         ({ ma with PriceHistory :=
            if ((ma.PriceHistory ++ [v]).length : ℤ) > ma.LongPeriod then
              (ma.PriceHistory ++ [v]).drop 1
            else ma.PriceHistory ++ [v] },
          { type_ := SellSignal, Amount := 1 })
       else
         ({ ma with PriceHistory :=
            if ((ma.PriceHistory ++ [v]).length : ℤ) > ma.LongPeriod then
              (ma.PriceHistory ++ [v]).drop 1
            else ma.PriceHistory ++ [v] },
          { type_ := HoldSignal, Amount := 0 })) := rfl

/-- One `Analyze` call grows the history by at most one element. -/
lemma analyze_hist_len_le (ma : MovingAverage) (d : MarketData) :
    ((ma.Analyze d).1).PriceHistory.length ≤ ma.PriceHistory.length + 1 := by
  cases hp : d.StckPrpr with
  | none => simp [MovingAverage.Analyze, hp]
  | some v =>
    obtain ⟨p⟩ := d
    cases hp
    rw [analyze_fst_hist]
    split
    · simp
    · simp

/-- While even the appended history is still strictly below the long window,
`Analyze` returns Hold. -/
lemma analyze_hold_of_short (ma : MovingAverage) (d : MarketData)
    (h : (ma.PriceHistory.length : ℤ) + 1 < ma.LongPeriod) :
    ((ma.Analyze d).2).type_ = HoldSignal := by
  cases hp : d.StckPrpr with
  | none => simp [MovingAverage.Analyze, hp]
  | some v =>
    obtain ⟨p⟩ := d
    cases hp
    simp only [MovingAverage.Analyze]
    rw [if_neg (by
      simp only [List.length_append, List.length_singleton]
      push_cast
      omega :
      ¬ (((ma.PriceHistory ++ [v]).length : ℤ) > ma.LongPeriod))]
    rw [if_pos (by
      simp only [List.length_append, List.length_singleton]
      push_cast
      omega :
      (((ma.PriceHistory ++ [v]).length : ℤ) < ma.LongPeriod))]

/-- Every signal of a replay is Hold while the series cannot fill the long
window. -/
lemma analyzeAll_hold :
    ∀ (l : List MarketData) (ma : MovingAverage),
      (ma.PriceHistory.length : ℤ) + l.length < ma.LongPeriod →
      ∀ sig ∈ (ma.analyzeAll l).2, sig.type_ = HoldSignal := by
  intro l
  induction l with
  | nil =>
    intro ma h sig hsig
    simp [MovingAverage.analyzeAll] at hsig
  | cons d ds ih =>
    intro ma h sig hsig
    simp only [MovingAverage.analyzeAll] at hsig
    rcases List.mem_cons.mp hsig with h1 | h2
    · rw [h1]
      apply analyze_hold_of_short
      simp only [List.length_cons] at h
      push_cast at h
      omega
    · have hlen := analyze_hist_len_le ma d
      have hcfg := (analyze_pres_config ma d).2.1
      refine ih ((ma.Analyze d).1) ?_ sig h2
      rw [hcfg]
      simp only [List.length_cons] at h
      push_cast at h ⊢
      omega

/-- C6: on every parsed price, `Analyze` appends the price and caps the
history to the most recent `longPeriod` elements; if the capped history is
still shorter than `longPeriod` the signal is Hold, and when it holds exactly
`longPeriod` prices the signal is decided by comparing the means of the most
recent `shortPeriod` and `longPeriod` prices against the threshold band
(Buy above, Sell below, Hold inside); consequently, on every series shorter
than `longPeriod` a freshly constructed strategy only ever returns Hold. -/
theorem analyze_sma_crossover :
    (∀ (ma : MovingAverage) (v : ℚ),
      0 < ma.ShortPeriod → ma.ShortPeriod ≤ ma.LongPeriod →
      (ma.PriceHistory.length : ℤ) ≤ ma.LongPeriod →
      (((ma.Analyze ⟨some v⟩).1).PriceHistory
          = (ma.PriceHistory ++ [v]).rtake ma.LongPeriod.toNat) ∧
      ((((ma.Analyze ⟨some v⟩).1).PriceHistory.length : ℤ) < ma.LongPeriod →
        ((ma.Analyze ⟨some v⟩).2).type_ = HoldSignal) ∧
      ((((ma.Analyze ⟨some v⟩).1).PriceHistory.length : ℤ) = ma.LongPeriod →
        ((ma.Analyze ⟨some v⟩).2).type_ =
          (if smaSpec ((ma.Analyze ⟨some v⟩).1).PriceHistory ma.ShortPeriod.toNat
              > smaSpec ((ma.Analyze ⟨some v⟩).1).PriceHistory ma.LongPeriod.toNat
                  * (1 + ma.Threshold)
           then BuySignal
           else if smaSpec ((ma.Analyze ⟨some v⟩).1).PriceHistory ma.ShortPeriod.toNat
              < smaSpec ((ma.Analyze ⟨some v⟩).1).PriceHistory ma.LongPeriod.toNat
                  * (1 - ma.Threshold)
           then SellSignal
           else HoldSignal))) ∧
    (∀ (cfg : StrategyConfig) (l : List MarketData),
      (l.length : ℤ) < cfg.LongPeriod →
      ∀ sig ∈ ((NewMovingAverage cfg).analyzeAll l).2, sig.type_ = HoldSignal) := by
  constructor
  · intro ma v hshort hsl hlen
    have hlong : 0 < ma.LongPeriod := lt_of_lt_of_le hshort hsl
    refine ⟨?_, ?_, ?_⟩
    · rw [analyze_fst_hist]
      simp only [List.rtake, List.length_append, List.length_singleton]
      split
      · rename_i hcap
        push_cast at hcap
        congr 1
        omega
      · rename_i hcap
        push_cast at hcap
        have : ma.PriceHistory.length + 1 - ma.LongPeriod.toNat = 0 := by omega
        rw [this, List.drop_zero]
    · intro hlt
      rw [analyze_fst_hist] at hlt
      rw [analyze_some]
      rw [if_pos hlt]
    · intro hexact
      rw [analyze_fst_hist] at hexact
      rw [analyze_fst_hist]
      conv_lhs => rw [analyze_some]
      have hs : ({ ma with PriceHistory :=
          if ((ma.PriceHistory ++ [v]).length : ℤ) > ma.LongPeriod then
            (ma.PriceHistory ++ [v]).drop 1
          else ma.PriceHistory ++ [v] } : MovingAverage).calculateMA ma.ShortPeriod
          = smaSpec (if ((ma.PriceHistory ++ [v]).length : ℤ) > ma.LongPeriod then
            (ma.PriceHistory ++ [v]).drop 1
          else ma.PriceHistory ++ [v]) ma.ShortPeriod.toNat :=
        calcMA_eq_smaSpec _ _ (le_of_lt hshort) (le_of_le_of_eq hsl hexact.symm)
      have hl : ({ ma with PriceHistory :=
          if ((ma.PriceHistory ++ [v]).length : ℤ) > ma.LongPeriod then
            (ma.PriceHistory ++ [v]).drop 1
          else ma.PriceHistory ++ [v] } : MovingAverage).calculateMA ma.LongPeriod
          = smaSpec (if ((ma.PriceHistory ++ [v]).length : ℤ) > ma.LongPeriod then
            (ma.PriceHistory ++ [v]).drop 1
          else ma.PriceHistory ++ [v]) ma.LongPeriod.toNat :=
        calcMA_eq_smaSpec _ _ (le_of_lt hlong) (le_of_eq hexact.symm)
      rw [if_neg (by rw [hexact]; exact lt_irrefl _), hs, hl]
      split_ifs <;> rfl
  · intro cfg l h sig hsig
    apply analyzeAll_hold l (NewMovingAverage cfg) _ sig hsig
    simpa [NewMovingAverage] using h

/-- Witness for `analyze_sma_crossover`: the capping equation at the concrete
strategy with window 2 holding one price, and the all-Hold series conclusion
on a one-element series against a window of 2. -/
theorem analyze_sma_crossover_witness :
    ((0 : ℤ) < 1 ∧ (1 : ℤ) ≤ 2 ∧ ((([10] : List ℚ).length : ℤ) ≤ 2)) ∧
    (((⟨1, 2, 0, [10]⟩ : MovingAverage).Analyze ⟨some 20⟩).1).PriceHistory
      = (([10] : List ℚ) ++ [20]).rtake (2 : ℤ).toNat ∧
    (∀ sig ∈ ((NewMovingAverage ⟨"ma", 1, 2, 0⟩).analyzeAll [⟨some 5⟩]).2,
      sig.type_ = HoldSignal) :=
  ⟨⟨by decide, by decide, by decide⟩,
   (analyze_sma_crossover.1 ⟨1, 2, 0, [10]⟩ 20 (by decide) (by decide) (by decide)).1,
   analyze_sma_crossover.2 ⟨"ma", 1, 2, 0⟩ [⟨some 5⟩] (by decide)⟩

/-- Scaling a numerator by a nonzero factor does not change whether a
quotient is zero. -/
lemma scale_div_zero_iff (bal v k : ℚ) (hk : k ≠ 0) :
    bal * k / v = 0 ↔ bal / v = 0 := by
  rw [div_eq_zero_iff, div_eq_zero_iff, mul_eq_zero]
  constructor
  · rintro (h | h)
    · rcases h with h | h
      · exact Or.inl h
      · exact absurd h hk
    · exact Or.inr h
  · rintro (h | h)
    · exact Or.inl (Or.inl h)
    · exact Or.inr h

/-- Scaling a numerator by a positive factor does not change whether a
quotient is positive. -/
lemma scale_div_pos_iff (bal v k : ℚ) (hk : 0 < k) :
    0 < bal * k / v ↔ 0 < bal / v := by
  rw [mul_comm, mul_div_assoc]
  constructor
  · intro h
    by_contra hneg
    push_neg at hneg
    nlinarith
  · intro h
    exact mul_pos hk h

/-- Closing a position from stats-agreeing results produces the same balance
and stats-agreeing results, for backtesters with the same initial balance
(the commission rate is not consulted). -/
lemma closePosition_agree {σ : Type} (b1 b2 : Backtester σ)
    (hib : b1.InitialBalance = b2.InitialBalance) (p e : ℚ)
    (r1 r2 : BacktestResult) (h : statsAgree r1 r2) :
    (b1.closePosition p e r1).1 = (b2.closePosition p e r2).1 ∧
    statsAgree (b1.closePosition p e r1).2 (b2.closePosition p e r2).2 := by
  obtain ⟨hT, hW, hL, hP, hR, hA⟩ := h
  simp only [Backtester.closePosition, statsAgree, hib]
  refine ⟨by trivial, ?_⟩
  split <;> exact ⟨by simp [hT], by simp [hW], by simp [hL], by simp [hP],
    by simp [hR], by simp [hA]⟩

/-- The mark-to-market block preserves the commission coupling. -/
lemma stepMark_rel {σ : Type} (s1 s2 : RunState σ) (v : ℚ)
    (h : relState s1 s2) : relState (s1.stepMark v) (s2.stepMark v) := by
  obtain ⟨hstrat, hbal, hentry, hz, hp, hstats⟩ := h
  obtain ⟨hT, hW, hL, hP, hR, hA⟩ := hstats
  have h1 := stepMark_fields s1 v
  have h2 := stepMark_fields s2 v
  refine ⟨?_, ?_, ?_, ?_, ?_, ?_, ?_, ?_, ?_, ?_, ?_⟩
  · rw [h1.1, h2.1]; exact hstrat
  · rw [h1.2.1, h2.2.1]; exact hbal
  · rw [h1.2.2.2.1, h2.2.2.2.1]; exact hentry
  · rw [h1.2.2.1, h2.2.2.1]; exact hz
  · rw [h1.2.2.1, h2.2.2.1]; exact hp
  · rw [h1.2.2.2.2.1, h2.2.2.2.2.1]; exact hT
  · rw [h1.2.2.2.2.2.1, h2.2.2.2.2.2.1]; exact hW
  · rw [h1.2.2.2.2.2.2.1, h2.2.2.2.2.2.2.1]; exact hL
  · rw [h1.2.2.2.2.2.2.2.1, h2.2.2.2.2.2.2.2.1]; exact hP
  · rw [h1.2.2.2.2.2.2.2.2.1, h2.2.2.2.2.2.2.2.2.1]; exact hR
  · rw [h1.2.2.2.2.2.2.2.2.2, h2.2.2.2.2.2.2.2.2.2]; exact hA

/-- The trade switch preserves the commission coupling: the branch guards
only inspect the sign class of the position, which agrees, and everything the
statistics observe is commission-free. -/
lemma stepTrade_rel {σ : Type} (b1 b2 : Backtester σ)
    (hib : b1.InitialBalance = b2.InitialBalance)
    (hc1 : b1.CommissionRate < 1) (hc2 : b2.CommissionRate < 1)
    (sig : String) (v : ℚ) (s1 s2 : RunState σ) (h : relState s1 s2) :
    relState (b1.stepTrade s1 sig v) (b2.stepTrade s2 sig v) := by
  obtain ⟨hstrat, hbal, hentry, hz, hp, hstats⟩ := h
  obtain ⟨hT, hW, hL, hP, hR, hA⟩ := hstats
  have hk1 : (0 : ℚ) < 1 - b1.CommissionRate := by linarith
  have hk2 : (0 : ℚ) < 1 - b2.CommissionRate := by linarith
  simp only [Backtester.stepTrade]
  by_cases hbuy : sig = BuySignal
  · rw [if_pos hbuy, if_pos hbuy]
    by_cases h0 : s1.position = 0
    · have h0' : s2.position = 0 := hz.mp h0
      rw [if_pos h0, if_pos h0']
      simp only [Backtester.executeBuy]
      refine ⟨hstrat, rfl, rfl, ?_, ?_, ?_⟩
      · rw [hbal, scale_div_zero_iff _ _ _ (ne_of_gt hk1),
          scale_div_zero_iff _ _ _ (ne_of_gt hk2)]
      · rw [hbal, scale_div_pos_iff _ _ _ hk1, scale_div_pos_iff _ _ _ hk2]
      · exact ⟨by simp [hT], hW, hL, hP, hR, hA⟩
    · have h0' : ¬ s2.position = 0 := fun hh => h0 (hz.mpr hh)
      rw [if_neg h0, if_neg h0']
      exact ⟨hstrat, hbal, hentry, hz, hp, hT, hW, hL, hP, hR, hA⟩
  · rw [if_neg hbuy, if_neg hbuy]
    by_cases hsell : sig = SellSignal
    · rw [if_pos hsell, if_pos hsell]
      by_cases hgt : s1.position > 0
      · have hgt' : s2.position > 0 := hp.mp hgt
        rw [if_pos hgt, if_pos hgt', ← hentry]
        have hcp := closePosition_agree b1 b2 hib v s1.entryPrice
          s1.result s2.result ⟨hT, hW, hL, hP, hR, hA⟩
        exact ⟨hstrat, hcp.1, rfl, Iff.rfl, Iff.rfl, hcp.2⟩
      · have hgt' : ¬ s2.position > 0 := fun hh => hgt (hp.mpr hh)
        rw [if_neg hgt, if_neg hgt']
        exact ⟨hstrat, hbal, hentry, hz, hp, hT, hW, hL, hP, hR, hA⟩
    · rw [if_neg hsell, if_neg hsell]
      exact ⟨hstrat, hbal, hentry, hz, hp, hT, hW, hL, hP, hR, hA⟩

/-- One whole loop iteration preserves the commission coupling, for
backtesters sharing the strategy and the initial balance. -/
lemma step_rel {σ : Type} (b1 b2 : Backtester σ)
    (hS : b1.Strategy.analyze = b2.Strategy.analyze)
    (hib : b1.InitialBalance = b2.InitialBalance)
    (hc1 : b1.CommissionRate < 1) (hc2 : b2.CommissionRate < 1)
    (s1 s2 : RunState σ) (d : MarketData) (h : relState s1 s2) :
    relState (b1.step s1 d) (b2.step s2 d) := by
  have har : b1.Strategy.analyze s1.stratState d
      = b2.Strategy.analyze s2.stratState d := by
    rw [hS, h.1]
  cases hpp : d.StckPrpr with
  | none =>
    rw [step_none b1 s1 d hpp, step_none b2 s2 d hpp]
    obtain ⟨hstrat, hbal, hentry, hz, hp, hstats⟩ := h
    exact ⟨by rw [har], hbal, hentry, hz, hp, hstats⟩
  | some v =>
    rw [step_some b1 s1 d v hpp, step_some b2 s2 d v hpp, har]
    apply stepMark_rel
    apply stepTrade_rel b1 b2 hib hc1 hc2
    obtain ⟨hstrat, hbal, hentry, hz, hp, hstats⟩ := h
    exact ⟨rfl, hbal, hentry, hz, hp, hstats⟩

/-- The end-of-run force close maps coupled loop states to stats-agreeing
results, for backtesters sharing the data and the initial balance. -/
lemma runFinal_rel {σ : Type} (b1 b2 : Backtester σ)
    (hib : b1.InitialBalance = b2.InitialBalance)
    (hData : b1.Data = b2.Data)
    (h : relState b1.runLoop b2.runLoop) :
    statsAgree b1.runFinal.result b2.runFinal.result := by
  obtain ⟨hstrat, hbal, hentry, hz, hp, hstats⟩ := h
  simp only [Backtester.runFinal]
  by_cases hpos : b1.runLoop.position > 0
  · have hpos' : b2.runLoop.position > 0 := hp.mp hpos
    rw [if_pos hpos, if_pos hpos', hData]
    cases hL : b2.Data.getLast? with
    | none => exact hstats
    | some dl =>
      dsimp only
      cases hq : parsePrice dl.StckPrpr with
      | error e => exact hstats
      | ok fp =>
        have hcp := closePosition_agree b1 b2 hib fp b1.runLoop.entryPrice
          b1.runLoop.result b2.runLoop.result hstats
        rw [← hentry]
        exact hcp.2
  · rw [if_neg hpos, if_neg (fun hh => hpos (hp.mpr hh))]
    exact hstats

/-- Finalization maps stats-agreeing pre-finalization results to
stats-agreeing finalized results. -/
lemma run_agree_of_final {σ : Type} (b1 b2 : Backtester σ)
    (h : statsAgree b1.runFinal.result b2.runFinal.result) :
    statsAgree b1.Run b2.Run := by
  obtain ⟨hT, hW, hL, hP, hR, hA⟩ := h
  simp only [Backtester.Run]
  by_cases ht : b1.runFinal.result.TotalTrades > 0
  · rw [if_pos ht, if_pos (by omega : b2.runFinal.result.TotalTrades > 0)]
    exact ⟨hT, hW, hL, hP, by rw [hW, hT], by rw [hA, hT]⟩
  · rw [if_neg ht, if_neg (by omega : ¬ b2.runFinal.result.TotalTrades > 0)]
    exact ⟨hT, hW, hL, hP, hR, hA⟩

/-- C9: two backtest runs that differ only in their commission rates (both
below 1) report identical TotalTrades, WinningTrades, LosingTrades,
TotalProfit, WinRate and AverageProfitPerTrade — the commission can reach at
most MaxDrawdown, because closePosition recomputes the balance from the
initial balance and the price ratio, discarding executeSell's
commission-adjusted proceeds, and executeBuy's commission factor only scales
the position used for equity marking. -/
theorem commission_stats_independence :
    ∀ (σ : Type) (strat : Strategy σ) (data : List MarketData) (ib c1 c2 : ℚ),
      c1 < 1 → c2 < 1 →
      statsAgree (NewBacktester strat data ib c1).Run
        (NewBacktester strat data ib c2).Run := by
  intro σ strat data ib c1 c2 hc1 hc2
  apply run_agree_of_final
  apply runFinal_rel (NewBacktester strat data ib c1)
    (NewBacktester strat data ib c2) rfl rfl
  exact foldl_rel
    (fun x y d hh =>
      step_rel (NewBacktester strat data ib c1) (NewBacktester strat data ib c2)
        rfl rfl hc1 hc2 x y d hh)
    data _ _ ⟨rfl, rfl, rfl, Iff.rfl, Iff.rfl, rfl, rfl, rfl, rfl, rfl, rfl⟩

/-- Witness for `commission_stats_independence`: commission rates 0 and
0.0025 on the concrete Buy-then-Sell scenario. -/
theorem commission_stats_independence_witness :
    ((0 : ℚ) < 1 ∧ (1 : ℚ) / 400 < 1) ∧
    statsAgree
      (NewBacktester (scripted [BuySignal, SellSignal])
        [⟨some 100⟩, ⟨some 110⟩] 10000000 0).Run
      (NewBacktester (scripted [BuySignal, SellSignal])
        [⟨some 100⟩, ⟨some 110⟩] 10000000 (1 / 400)).Run :=
  ⟨⟨by norm_num, by norm_num⟩,
   commission_stats_independence (List String)
     (scripted [BuySignal, SellSignal]) [⟨some 100⟩, ⟨some 110⟩]
     10000000 0 (1 / 400) (by norm_num) (by norm_num)⟩

end Trading
